import Mathlib

/-!
# Verification of the Datacoin consensus core against its specification

Shallow embedding of the difficulty engine (`src/pow.cpp`), the block header
and its serialization (`src/primitives/block.h`), the network parameters and
genesis construction (`src/chainparams.cpp`), and the block-index RPC
operations (`src/rpc/blockchain.cpp`).

Machine integers are embedded as `Nat`/`Int` with explicit `% 2^w` where the
C++ arithmetic wraps.  Code that the repository calls but whose implementation
is not among the provided sources (the prime-target codec of `prime/prime.cpp`,
the compact codec of `arith_uint256.cpp`, hash functions, and
`ResetBlockFailureFlags` of `validation.cpp`) is either taken as a parameter of
the embedded function or modelled explicitly; every modelled definition carries
a doc comment saying so.
-/

/-! ## Consensus parameters (`src/consensus/params.h` values set in `src/chainparams.cpp`) -/

/-- The consensus-relevant subset of `Consensus::Params`, as populated by
`CMainParams` / `CTestNetParams` / `CRegTestParams` in `src/chainparams.cpp`. -/
structure ConsensusParams where
  nPowTargetTimespan : Int
  nPowTargetSpacing : Int
  fPowAllowMinDifficultyBlocks : Bool
  fPowNoRetargeting : Bool
  powLimit : Nat
  nTargetInitialLength : Nat
  nTargetMinLength : Nat
  deriving Repr, DecidableEq

/-- Modelled from the spec: the compact prime-target codec of `prime/prime.cpp`
(not among the provided sources).  The spec's Compact Target Codec stores the
required chain length's integer part above a fractional part kept in the
low-order bits of the 32-bit word; `TargetFromInt n` encodes an integer length
`n` with zero fractional part (24 fractional bits, as used by the genesis
targets `TargetFromInt(6)/(4)/(1)` in `src/chainparams.cpp`). -/
def nFractionalBits : Nat := 24

/-- Modelled from the spec: `TargetFromInt` of `prime/prime.cpp` — the codec's
`fromLength(n)`: integer length in the high bits, zero fractional part. -/
def TargetFromInt (nLength : Nat) : Nat := nLength * 2 ^ nFractionalBits

/-- Modelled from the spec: `TargetGetLimit` of `prime/prime.cpp` — the codec's
`limit()`, the network ceiling (easiest target), i.e. the encoding of the
network's minimum required chain length. -/
def TargetGetLimit (params : ConsensusParams) : Nat :=
  TargetFromInt params.nTargetMinLength

/-- Modelled from the spec: `TargetGetInitial` of `prime/prime.cpp` — the
codec's `initial()`, the genesis-adjacent difficulty, i.e. the encoding of the
network's initial required chain length. -/
def TargetGetInitial (params : ConsensusParams) : Nat :=
  TargetFromInt params.nTargetInitialLength

/-- `CMainParams` (`src/chainparams.cpp`): mainnet consensus values. -/
def mainParams : ConsensusParams where
  nPowTargetTimespan := 7 * 24 * 60 * 60
  nPowTargetSpacing := 60
  fPowAllowMinDifficultyBlocks := false
  fPowNoRetargeting := false
  powLimit := 0x00000000ffffffffffffffffffffffffffffffffffffffffffffffffffffffff
  nTargetInitialLength := 7
  nTargetMinLength := 6

/-- `CTestNetParams` (`src/chainparams.cpp`): testnet consensus values. -/
def testNetParams : ConsensusParams where
  nPowTargetTimespan := 7 * 24 * 60 * 60
  nPowTargetSpacing := 60
  fPowAllowMinDifficultyBlocks := true
  fPowNoRetargeting := false
  powLimit := 0x00000000ffffffffffffffffffffffffffffffffffffffffffffffffffffffff
  nTargetInitialLength := 4
  nTargetMinLength := 2

/-- `CRegTestParams` (`src/chainparams.cpp`): regtest consensus values
(`fPowNoRetargeting = true`). -/
def regTestParams : ConsensusParams where
  nPowTargetTimespan := 7 * 24 * 60 * 60
  nPowTargetSpacing := 60
  fPowAllowMinDifficultyBlocks := true
  fPowNoRetargeting := true
  powLimit := 0x7fffffffffffffffffffffffffffffffffffffffffffffffffffffffffffffff
  nTargetInitialLength := 1
  nTargetMinLength := 1

/-! ## Block index entries (`CBlockIndex`, fields used by `src/pow.cpp`) -/

/-- The fields of `CBlockIndex` that `src/pow.cpp` reads: the block time, the
compact target `nBits`, and the parent pointer `pprev` (none for genesis). -/
inductive BlockIndex : Type where
  | node (nTime : Nat) (nBits : Nat) (pprev : Option BlockIndex) : BlockIndex
  deriving Repr

def BlockIndex.nTime : BlockIndex → Nat
  | .node t _ _ => t

def BlockIndex.nBits : BlockIndex → Nat
  | .node _ b _ => b

def BlockIndex.pprev : BlockIndex → Option BlockIndex
  | .node _ _ p => p

/-- `CBlockIndex::GetBlockTime`: the 32-bit block time widened to `int64_t`. -/
def BlockIndex.GetBlockTime (b : BlockIndex) : Int := (b.nTime : Int)

/-- `CBlockIndex::nHeight`: derived here from the parent chain
(`height = parent.height + 1`, genesis at 0). -/
def BlockIndex.height : BlockIndex → Nat
  | .node _ _ none => 0
  | .node _ _ (some p) => p.height + 1

/-! ## Difficulty engine (`src/pow.cpp`) -/

/-- `GetNextWorkRequired` (`src/pow.cpp:24-52`).  The continuous per-block
adjustment `TargetGetNext` lives in `prime/prime.cpp`, which is not among the
provided sources, so it is a parameter here: it receives the previous target,
the interval, the target spacing and the actual spacing, and returns the new
target or fails (`none`); on failure the C++ returns
`error(...)`, i.e. `false` converted to the unsigned return type, which is 0. -/
def GetNextWorkRequired
    (targetGetNext : Nat → Int → Int → Int → Option Nat)
    (pindexLast : Option BlockIndex) (params : ConsensusParams) : Nat :=
  match pindexLast with
  | none => TargetGetLimit params        -- Genesis block
  | some pindexPrev =>
    match pindexPrev.pprev with
    | none => TargetGetInitial params    -- first block
    | some pindexPrevPrev =>
      match pindexPrevPrev.pprev with
      | none => TargetGetInitial params  -- second block
      | some _ =>
        let nInterval : Int := Int.tdiv params.nPowTargetTimespan params.nPowTargetSpacing
        let nActualSpacing : Int := pindexPrev.GetBlockTime - pindexPrevPrev.GetBlockTime
        match targetGetNext pindexPrev.nBits nInterval params.nPowTargetSpacing nActualSpacing with
        | some nBits => nBits
        | none => 0

/-! ## The 256-bit compact codec used by `CalculateNextWorkRequired`

`src/pow.cpp:54-77` decodes `pindexLast->nBits` with
`arith_uint256::SetCompact`, scales it, clamps it at `params.powLimit` and
re-encodes it with `arith_uint256::GetCompact`.  `arith_uint256.cpp` is not
among the provided sources, so the codec is modelled below. -/

/-- Fuel-bounded bit-length recursion (structural, so that the kernel can
evaluate it on concrete values). -/
def bitsLenFuel : Nat → Nat → Nat
  | 0, _ => 0
  | fuel + 1, m => if m = 0 then 0 else bitsLenFuel fuel (m / 2) + 1

/-- Number of significant bits of a value (`base_uint::bits()`):
0 for 0, otherwise the index of the highest set bit plus one. -/
def bitsLen (n : Nat) : Nat := bitsLenFuel n n

/-- Modelled from the spec: `arith_uint256::SetCompact` (`arith_uint256.cpp`,
not among the provided sources; standard Bitcoin compact decoding, which
`src/pow.cpp` invokes).  The top byte is a base-256 exponent, the low 23 bits a
mantissa; the 256-bit left shift discards overflowing high bits. -/
def setCompact (nCompact : Nat) : Nat :=
  let nSize := nCompact >>> 24
  let nWord := nCompact &&& 0x007fffff
  if nSize ≤ 3 then nWord >>> (8 * (3 - nSize))
  else (nWord <<< (8 * (nSize - 3))) % 2 ^ 256

/-- Modelled from the spec: `arith_uint256::GetCompact` (`arith_uint256.cpp`,
not among the provided sources; standard Bitcoin compact encoding, which
`src/pow.cpp` invokes).  Encodes the byte length and the top three bytes,
shifting once more when the mantissa's top bit is set so that it is never
mistaken for a sign. -/
def getCompact (x : Nat) : Nat :=
  let nSize := (bitsLen x + 7) / 8
  let nCompact :=
    if nSize ≤ 3 then (x % 2 ^ 64) <<< (8 * (3 - nSize))
    else (x >>> (8 * (nSize - 3))) % 2 ^ 64
  let nCompact' := if nCompact &&& 0x00800000 ≠ 0 then nCompact >>> 8 else nCompact
  let nSize' := if nCompact &&& 0x00800000 ≠ 0 then nSize + 1 else nSize
  nCompact' ||| (nSize' <<< 24)

/-- The timespan clamp of `CalculateNextWorkRequired` (`src/pow.cpp:60-64`):
the measured timespan is raised to `nPowTargetTimespan/4` and lowered to
`nPowTargetTimespan*4`. -/
def clampedTimespan (params : ConsensusParams) (nActualTimespan0 : Int) : Int :=
  let t1 := if nActualTimespan0 < Int.tdiv params.nPowTargetTimespan 4
            then Int.tdiv params.nPowTargetTimespan 4 else nActualTimespan0
  if t1 > params.nPowTargetTimespan * 4 then params.nPowTargetTimespan * 4 else t1

/-- `CalculateNextWorkRequired` (`src/pow.cpp:54-77`): with
`fPowNoRetargeting` the previous target is returned unchanged; otherwise the
decoded previous target is scaled by clamped-timespan / target-timespan in
256-bit arithmetic, clamped above at `powLimit`, and re-encoded. -/
def CalculateNextWorkRequired (pindexLast : BlockIndex) (nFirstBlockTime : Int)
    (params : ConsensusParams) : Nat :=
  if params.fPowNoRetargeting then pindexLast.nBits
  else
    let nActualTimespan := clampedTimespan params (pindexLast.GetBlockTime - nFirstBlockTime)
    let bnPowLimit := params.powLimit
    let bnNew0 := setCompact pindexLast.nBits
    let bnNew1 := (bnNew0 * nActualTimespan.toNat) % 2 ^ 256
    let bnNew2 := bnNew1 / params.nPowTargetTimespan.toNat
    let bnNew := if bnNew2 > bnPowLimit then bnPowLimit else bnNew2
    getCompact bnNew

/-! ## Block header and its wire layout (`src/primitives/block.h`) -/

/-- `CBlockHeader` (`src/primitives/block.h:22-96`): the six hashed fields plus
the prime-chain multiplier certificate (`CBigNum`, non-negative, embedded as
`Nat`). -/
structure CBlockHeader where
  nVersion : Int
  hashPrevBlock : Nat
  hashMerkleRoot : Nat
  nTime : Nat
  nBits : Nat
  nNonce : Nat
  bnPrimeChainMultiplier : Nat
  deriving Repr, DecidableEq

/-- Little-endian serialization of `width` bytes of a value (the fixed-width
integer wire encoding used by `READWRITE` for `int32_t`/`uint32_t`/`uint256`). -/
def serLE (width : Nat) (n : Nat) : List Nat :=
  match width with
  | 0 => []
  | w + 1 => n % 256 :: serLE w (n / 256)

/-- Wire encoding of a 32-bit unsigned field: 4 bytes little-endian. -/
def ser32le (n : Nat) : List Nat := serLE 4 n

/-- Wire encoding of `int32_t nVersion`: two's complement, little-endian. -/
def serInt32le (i : Int) : List Nat := ser32le (i % (2 ^ 32)).toNat

/-- Wire encoding of a `uint256` field: 32 bytes little-endian. -/
def ser256le (n : Nat) : List Nat := serLE 32 n

/-- Fuel-bounded byte-string recursion (structural, so that the kernel can
evaluate it on concrete values). -/
def natBytesFuel : Nat → Nat → List Nat
  | 0, _ => []
  | fuel + 1, m => if m = 0 then [] else m % 256 :: natBytesFuel fuel (m / 256)

/-- Minimal little-endian byte string of a natural number (empty for 0). -/
def natBytesLE (n : Nat) : List Nat := natBytesFuel n n

/-- Modelled from the spec: the wire encoding of `CBigNum` (`prime/bignum.h`
and `serialize.h` are not among the provided sources).  The spec's header wire
layout ends with "a length-prefixed variable-size big-integer encoding of the
prime-chain multiplier"; the model uses the byte count as the single-byte
prefix (the compact-size prefix's one-byte regime, lengths below 253) followed
by the magnitude bytes. -/
def serBigNum (n : Nat) : List Nat := (natBytesLE n).length :: natBytesLE n

/-- The byte stream that `CBlockHeader::GetHeaderHash`
(`src/primitives/block.h:76-88`) feeds into its `CHashWriter`:
`ss << nVersion << hashPrevBlock << hashMerkleRoot << nTime << nBits << nNonce`
— the prime-chain multiplier is excluded. -/
def headerHashInput (h : CBlockHeader) : List Nat :=
  serInt32le h.nVersion ++ ser256le h.hashPrevBlock ++ ser256le h.hashMerkleRoot ++
    ser32le h.nTime ++ ser32le h.nBits ++ ser32le h.nNonce

/-- `CBlockHeader::GetHeaderHash`: the proof-of-work hash of the header.  The
hash primitive (`CHashWriter`, `hash.h`, not among the provided sources) is a
parameter; the embedded function applies it to the serialized six fields. -/
def GetHeaderHash (hashFn : List Nat → Nat) (h : CBlockHeader) : Nat :=
  hashFn (headerHashInput h)

/-- `CBlockHeader::SerializationOp` (`src/primitives/block.h:47-56`): the wire
layout writes, in order, version, previous-block id, merkle root, time, compact
target, nonce, then the variable-size multiplier. -/
def serHeader (h : CBlockHeader) : List Nat :=
  serInt32le h.nVersion ++ ser256le h.hashPrevBlock ++ ser256le h.hashMerkleRoot ++
    ser32le h.nTime ++ ser32le h.nBits ++ ser32le h.nNonce ++
    serBigNum h.bnPrimeChainMultiplier

/-- Take exactly `k` bytes off the front of a stream, failing on underflow. -/
def readBytes (k : Nat) (bs : List Nat) : Option (List Nat × List Nat) :=
  if k ≤ bs.length then some (bs.take k, bs.drop k) else none

/-- Value of a little-endian byte string. -/
def leToNat (l : List Nat) : Nat := l.foldr (fun b acc => b + 256 * acc) 0

/-- Decoding of the `int32_t nVersion` field from its little-endian bytes. -/
def i32FromNat (n : Nat) : Int :=
  if n < 2 ^ 31 then (n : Int) else (n : Int) - 2 ^ 32

/-- Deserialization of the header wire layout (inverse direction of
`CBlockHeader::SerializationOp`): reads the fixed 4/32/32/4/4/4-byte prefix,
then the length-prefixed multiplier, returning the header and the remaining
stream. -/
def deserHeader (bs : List Nat) : Option (CBlockHeader × List Nat) := do
  let (v, bs) ← readBytes 4 bs
  let (pb, bs) ← readBytes 32 bs
  let (mr, bs) ← readBytes 32 bs
  let (tm, bs) ← readBytes 4 bs
  let (bits, bs) ← readBytes 4 bs
  let (nonce, bs) ← readBytes 4 bs
  match bs with
  | [] => none
  | len :: bs =>
    if len < 253 then
      let (mult, bs) ← readBytes len bs
      pure ({ nVersion := i32FromNat (leToNat v)
              hashPrevBlock := leToNat pb
              hashMerkleRoot := leToNat mr
              nTime := leToNat tm
              nBits := leToNat bits
              nNonce := leToNat nonce
              bnPrimeChainMultiplier := leToNat mult }, bs)
    else none

/-! ## Genesis construction (`src/chainparams.cpp`) -/

/-- The data of the genesis coinbase transaction built by `CreateGenesisBlock`
(`src/chainparams.cpp:22-43`): the topic string embedded in the input script
and the single output's reward. -/
structure GenesisTx where
  pszStartTopic : String
  genesisReward : Int
  deriving Repr, DecidableEq

/-- Modelled from the spec: `COIN` (`amount.h`, not among the provided
sources) — the fixed reward amount unit of the genesis output. -/
def COIN : Int := 100000000

/-- The topic string of `CreateGenesisBlock` (`src/chainparams.cpp:58`). -/
def startTopic : String := "https://bitcointalk.org/index.php?topic=325735.0"

/-- `CreateGenesisBlock` (`src/chainparams.cpp:22-43`): builds the genesis
header from the fixed constants; `hashPrevBlock` is null and the merkle root is
computed from the single coinbase transaction by `BlockMerkleRoot`
(`consensus/merkle.cpp`, not among the provided sources — a parameter here). -/
def CreateGenesisBlock (blockMerkleRoot : GenesisTx → Nat) (pszStartTopic : String)
    (nTime nNonce nBits : Nat) (nVersion : Int) (bnPrimeChainMultiplier : Nat)
    (genesisReward : Int) : CBlockHeader where
  nVersion := nVersion
  hashPrevBlock := 0
  hashMerkleRoot := blockMerkleRoot ⟨pszStartTopic, genesisReward⟩
  nTime := nTime
  nBits := nBits
  nNonce := nNonce
  bnPrimeChainMultiplier := bnPrimeChainMultiplier

/-- The merkle-root constant asserted by all three networks
(`src/chainparams.cpp:148,264,369`). -/
def genesisMerkleRootConst : Nat :=
  0xfe5d7082c24c53362f6b82211913d536677aaffafde0dcec6ff7b348ff6265f8

/-- Genesis hash constant asserted by `CMainParams` (`src/chainparams.cpp:147`). -/
def mainGenesisHashConst : Nat :=
  0x1d724e874ee9ea571563239bde095911f128db47c7612fb1968c08c9f95cabe8

/-- Genesis hash constant asserted by `CTestNetParams` (`src/chainparams.cpp:263`). -/
def testNetGenesisHashConst : Nat :=
  0x26ee5563233ed8cbdd8af5f16bc55b73d9d8cc727392d507292ca959fd08c03f

/-- Genesis hash constant asserted by `CRegTestParams` (`src/chainparams.cpp:368`). -/
def regTestGenesisHashConst : Nat :=
  0x3864a16a5e7c9f79f2ab2ebc41e943f342f6737b83649844f6b41334eb7e5ba8

/-- The genesis header built by `CMainParams` (`src/chainparams.cpp:145`). -/
def mainGenesisBlock (blockMerkleRoot : GenesisTx → Nat) : CBlockHeader :=
  CreateGenesisBlock blockMerkleRoot startTopic 1384627170 49030125 (TargetFromInt 6) 2 5651310 COIN

/-- The genesis header built by `CTestNetParams` (`src/chainparams.cpp:261`). -/
def testNetGenesisBlock (blockMerkleRoot : GenesisTx → Nat) : CBlockHeader :=
  CreateGenesisBlock blockMerkleRoot startTopic 1385686192 46032 (TargetFromInt 4) 2 211890 COIN

/-- The genesis header built by `CRegTestParams` (`src/chainparams.cpp:366`). -/
def regTestGenesisBlock (blockMerkleRoot : GenesisTx → Nat) : CBlockHeader :=
  CreateGenesisBlock blockMerkleRoot startTopic 1385686192 46032 (TargetFromInt 1) 2 211890 COIN

/-- The genesis section of a network's `CChainParams` constructor
(`src/chainparams.cpp:145-148, 261-264, 366-369`): build the genesis block,
compute its hash (`CBlockHeader::GetHash`, defined in `primitives/block.cpp`,
not among the provided sources — a parameter here), and assert that the hash
and the merkle root equal the hardcoded constants.  An assertion failure is
fatal at process start, modelled as `none`. -/
def buildGenesisChecked (getHash : CBlockHeader → Nat) (genesis : CBlockHeader)
    (expectedHash : Nat) : Option CBlockHeader :=
  if getHash genesis = expectedHash ∧ genesis.hashMerkleRoot = genesisMerkleRootConst
  then some genesis else none

/-! ## Block index graph and RPC operations (`src/rpc/blockchain.cpp`) -/

/-- The validity levels of a block index entry, following the spec's data
model (header-only, tree-valid, scripts-valid; `chain.h` with the
`BlockStatus` bit constants is not among the provided sources). -/
inductive ValidityLevel : Type where
  | header
  | tree
  | scripts
  deriving Repr, DecidableEq

/-- Numeric rank of a validity level, mirroring the ordering of the
`BLOCK_VALID_*` constants (`BLOCK_VALID_HEADER=1 < BLOCK_VALID_TREE=2 <
BLOCK_VALID_SCRIPTS=5`). -/
def ValidityLevel.rank : ValidityLevel → Nat
  | .header => 1
  | .tree => 2
  | .scripts => 5

/-- The validity-status word of a `CBlockIndex` (`nStatus`): a validity level
plus the two failure bits (`BLOCK_FAILED_VALID`: this block failed;
`BLOCK_FAILED_CHILD`: a descendant of a failed block), per the spec's data
model. -/
structure BlockStatus where
  validity : ValidityLevel
  failedSelf : Bool
  failedChild : Bool
  deriving Repr, DecidableEq

/-- `nStatus & BLOCK_FAILED_MASK`: either failure bit is set. -/
def BlockStatus.failedMask (s : BlockStatus) : Bool := s.failedSelf || s.failedChild

/-- `CBlockIndex::IsValid(nUpTo)`: never true for failed entries; otherwise
the recorded validity level must reach `nUpTo`. -/
def BlockStatus.isValid (s : BlockStatus) (nUpTo : ValidityLevel) : Bool :=
  !s.failedMask && decide (nUpTo.rank ≤ s.validity.rank)

/-- A `CBlockIndex` entry as used by the RPC operations: identity hash, parent
hash (`pprev`), height, status word, and the cumulative transaction count
`nChainTx` (0 while block data for it or an ancestor is missing). -/
structure BlockNode where
  hash : Nat
  pprev : Option Nat
  nHeight : Nat
  status : BlockStatus
  nChainTx : Nat
  deriving Repr, DecidableEq

/-- The shared chain state read by the RPC operations: `mapBlockIndex` (the
forest of all known entries) and `chainActive` (the active chain's block
hashes indexed by height, genesis first). -/
structure NodeState where
  mapBlockIndex : List BlockNode
  chainActive : List Nat
  deriving Repr, DecidableEq

/-- `mapBlockIndex` lookup by block hash. -/
def lookupBlock (g : List BlockNode) (h : Nat) : Option BlockNode :=
  g.find? (fun n => n.hash = h)

/-- `CChain::Contains(pindex)`, which is `(*this)[pindex->nHeight] == pindex`:
the chain's entry at the node's height is the node. -/
def chainContains (st : NodeState) (n : BlockNode) : Bool :=
  st.chainActive.get? n.nHeight = some n.hash

/-- The status annotation of one chain tip (`getchaintips`,
`src/rpc/blockchain.cpp:1354-1373`), including the fallback `"unknown"`
branch.  (The source's annotation `"valid-headers"` is the spec's
"valid-headers-only".) -/
def tipStatus (st : NodeState) (block : BlockNode) : String :=
  if chainContains st block then "active"
  else if block.status.failedMask then "invalid"
  else if block.nChainTx = 0 then "headers-only"
  else if block.status.isValid .scripts then "valid-fork"
  else if block.status.isValid .tree then "valid-headers"
  else "unknown"

/-- The `setOrphans` pass of `getchaintips`
(`src/rpc/blockchain.cpp:1325-1331`): the entries outside the active chain. -/
def chainTipsOrphans (st : NodeState) : List BlockNode :=
  st.mapBlockIndex.filter (fun n => !chainContains st n)

/-- The `setPrevs` pass of `getchaintips`: the parent hashes of the orphans. -/
def chainTipsPrevs (st : NodeState) : List Nat :=
  (chainTipsOrphans st).filterMap (fun n => n.pprev)

/-- The `setTips` pass of `getchaintips`: orphans no other orphan builds on. -/
def chainTipsBase (st : NodeState) : List BlockNode :=
  (chainTipsOrphans st).filter (fun n => !(chainTipsPrevs st).contains n.hash)

/-- `getchaintips` (`src/rpc/blockchain.cpp:1279-1380`): the tips are the
orphans no other orphan builds on, plus (always) the active tip; each is
annotated with its status.  (The reported `branchlen` is omitted: no claim
concerns it.) -/
def getchaintips (st : NodeState) : List (BlockNode × String) :=
  let setTipsAll :=
    match st.chainActive.getLast? with
    | some tiph =>
      match lookupBlock st.mapBlockIndex tiph with
      | some tipn => chainTipsBase st ++ [tipn]
      | none => chainTipsBase st
    | none => chainTipsBase st
  setTipsAll.map (fun b => (b, tipStatus st b))

/-- Hash of this block followed by the hashes of all its ancestors, walking
`pprev` links through `mapBlockIndex` (fuel-bounded walk; `g.length + 1` fuel
always suffices on acyclic graphs). -/
def chainUpFrom (g : List BlockNode) : Nat → Nat → List Nat
  | 0, _ => []
  | fuel + 1, h =>
    h :: (match lookupBlock g h with
          | some n =>
            match n.pprev with
            | some p => chainUpFrom g fuel p
            | none => []
          | none => [])

/-- `anc` is `desc` itself or an ancestor of `desc` in the graph. -/
def isAncestorOrSelf (g : List BlockNode) (anc desc : Nat) : Bool :=
  (chainUpFrom g (g.length + 1) desc).contains anc

/-- Clear both failure bits of a status word (`nStatus &= ~BLOCK_FAILED_MASK`). -/
def clearFailed (s : BlockStatus) : BlockStatus :=
  { s with failedSelf := false, failedChild := false }

/-- Modelled from the spec: `ResetBlockFailureFlags` (`validation.cpp`, not
among the provided sources).  Its caller's own documentation
(`src/rpc/blockchain.cpp:1500`) states that it "Removes invalidity status of a
block and its descendants", and the spec (§4.5) states that failed flags are
cleared on the node and its ancestors; the model clears the failure bits on
the named block, on each of its ancestors, and on each of its descendants,
leaving every other entry and every other field unchanged. -/
def resetEntry (g : List BlockNode) (h : Nat) (n : BlockNode) : BlockNode :=
  if isAncestorOrSelf g h n.hash || isAncestorOrSelf g n.hash h
  then { n with status := clearFailed n.status } else n

def ResetBlockFailureFlags (g : List BlockNode) (h : Nat) : List BlockNode :=
  g.map (resetEntry g h)

/-- `reconsiderblock` (`src/rpc/blockchain.cpp:1495-1530`): an unknown hash
raises "Block not found"; otherwise the failure flags are reset and the best
chain is re-activated (`ActivateBestChain` lives in `validation.cpp`, not
among the provided sources — a parameter here, applied after the flag
clearing). -/
def reconsiderblock (activateBestChain : NodeState → NodeState)
    (st : NodeState) (h : Nat) : Except String NodeState :=
  if (lookupBlock st.mapBlockIndex h).isSome then
    .ok (activateBestChain
          { st with mapBlockIndex := ResetBlockFailureFlags st.mapBlockIndex h })
  else .error "Block not found"

/-- `CChain::Height()`: number of blocks minus one (-1 for an empty chain). -/
def chainHeight (c : List Nat) : Int := (c.length : Int) - 1

/-- `getblockhash` (`src/rpc/blockchain.cpp:644-667`): heights outside
`[0, chainActive.Height()]` raise "Block height out of range"; otherwise the
hash of the active-chain block at that height is returned.  The operation only
reads the state; it is returned unchanged. -/
def getblockhash (st : NodeState) (nHeight : Int) : Except String Nat × NodeState :=
  (if nHeight < 0 ∨ nHeight > chainHeight st.chainActive
   then .error "Block height out of range"
   else .ok (st.chainActive.getD nHeight.toNat 0), st)

/-! ## Theorems -/

/-! ### Helper lemmas -/

theorem bitsLenFuel_lt : ∀ fuel m, m ≤ fuel → m < 2 ^ bitsLenFuel fuel m := by
  intro fuel
  induction fuel with
  | zero =>
    intro m hm
    have h0 : m = 0 := Nat.le_zero.mp hm
    subst h0
    simp [bitsLenFuel]
  | succ fuel ih =>
    intro m hm
    by_cases h0 : m = 0
    · subst h0; simp [bitsLenFuel]
    · have hm2 : m / 2 ≤ fuel := by omega
      have hrec := ih (m / 2) hm2
      simp only [bitsLenFuel, h0, if_false]
      rw [pow_succ]
      omega

theorem bitsLenFuel_le : ∀ fuel m k, m ≤ fuel → m < 2 ^ k → bitsLenFuel fuel m ≤ k := by
  intro fuel
  induction fuel with
  | zero => intro m k _ _; simp [bitsLenFuel]
  | succ fuel ih =>
    intro m k hm hk
    by_cases h0 : m = 0
    · subst h0; simp [bitsLenFuel]
    · simp only [bitsLenFuel, h0, if_false]
      have hk1 : 1 ≤ k := by
        by_contra hc
        have : k = 0 := by omega
        subst this
        simp at hk
        omega
      have hbound : m / 2 < 2 ^ (k - 1) := by
        have h2 : 2 ^ k = 2 * 2 ^ (k - 1) := by
          conv_lhs => rw [show k = (k - 1) + 1 by omega]
          rw [pow_succ]
          ring
        omega
      have := ih (m / 2) (k - 1) (by omega) hbound
      omega

theorem bitsLen_le {z n : Nat} (h : z < 2 ^ n) : bitsLen z ≤ n :=
  bitsLenFuel_le z z n le_rfl h

theorem lt_two_pow_bitsLen (z : Nat) : z < 2 ^ bitsLen z :=
  bitsLenFuel_lt z z le_rfl

theorem le_bitsLen {z k : Nat} (h : 2 ^ k ≤ z) : k + 1 ≤ bitsLen z := by
  by_contra hlt
  have h1 := lt_two_pow_bitsLen z
  have h2 : z < 2 ^ k :=
    lt_of_lt_of_le h1 (Nat.pow_le_pow_right (by norm_num) (by omega))
  omega

theorem compactOr_le {m s : Nat} (hm : m < 2 ^ 24) (h : 2 ^ 24 * s + m ≤ 0x1d00ffff) :
    m ||| (s <<< 24) ≤ 0x1d00ffff := by
  rw [Nat.lor_comm, Nat.shiftLeft_eq, mul_comm s (2 ^ 24), ← Nat.mul_add_lt_is_or hm s]
  exact h

theorem getCompact_le_of_lt_pow224 {z : Nat} (hz : z < 2 ^ 224) :
    getCompact z ≤ 0x1d00ffff := by
  have hble : bitsLen z ≤ 224 := bitsLen_le hz
  simp only [getCompact]
  set s := (bitsLen z + 7) / 8 with hsdef
  have hs28 : s ≤ 28 := by omega
  have hz8 : z < 2 ^ (8 * s) := by
    refine lt_of_lt_of_le (lt_two_pow_bitsLen z) (Nat.pow_le_pow_right (by norm_num) ?_)
    omega
  generalize hg :
    (if s ≤ 3 then (z % 2 ^ 64) <<< (8 * (3 - s)) else z >>> (8 * (s - 3)) % 2 ^ 64) = m
  have hm : m < 2 ^ 24 := by
    rw [← hg]
    split
    · next h3 =>
      have hz64 : z % 2 ^ 64 = z :=
        Nat.mod_eq_of_lt
          (lt_of_lt_of_le hz8 (Nat.pow_le_pow_right (by norm_num) (by omega)))
      rw [hz64, Nat.shiftLeft_eq]
      calc z * 2 ^ (8 * (3 - s)) < 2 ^ (8 * s) * 2 ^ (8 * (3 - s)) :=
            Nat.mul_lt_mul_of_pos_right hz8 (Nat.pos_pow_of_pos _ (by norm_num))
        _ = 2 ^ (8 * s + 8 * (3 - s)) := (pow_add 2 _ _).symm
        _ ≤ 2 ^ 24 := Nat.pow_le_pow_right (by norm_num) (by omega)
    · next h3 =>
      have hsh : z >>> (8 * (s - 3)) < 2 ^ 24 := by
        rw [Nat.shiftRight_eq_div_pow]
        apply Nat.div_lt_of_lt_mul
        calc z < 2 ^ (8 * s) := hz8
          _ = 2 ^ (8 * (s - 3)) * 2 ^ 24 := by rw [← pow_add]; congr 1; omega
      exact lt_of_le_of_lt (Nat.mod_le _ _) hsh
  by_cases hadj : m &&& 0x00800000 ≠ 0
  · rw [if_pos hadj, if_pos hadj]
    have hm8 : m >>> 8 < 2 ^ 16 := by
      rw [Nat.shiftRight_eq_div_pow]
      apply Nat.div_lt_of_lt_mul
      calc m < 2 ^ 24 := hm
        _ = 2 ^ 8 * 2 ^ 16 := by norm_num
    refine compactOr_le (lt_of_lt_of_le hm8 (by norm_num)) ?_
    omega
  · rw [if_neg hadj, if_neg hadj]
    exact compactOr_le hm (by omega)

/-! ### C1: bootstrap rule of `GetNextWorkRequired` -/

/-- C1 (counterexample): the claim says the difficulty engine's next-target
computation returns `initial()` when there is no previous block (height 0) and
for no height other than 0 and 1.  On mainnet, with no previous block the code
returns `TargetGetLimit()` (length 6), not `TargetGetInitial()` (length 7);
and invoked with a previous block of height 1 (i.e. for a block of height 2)
the bootstrap rule returns `initial()` as well. -/
theorem c1_bootstrap_counterexample :
    GetNextWorkRequired (fun _ _ _ _ => none) none mainParams ≠ TargetGetInitial mainParams ∧
    GetNextWorkRequired (fun _ _ _ _ => none) none mainParams = TargetGetLimit mainParams ∧
    (BlockIndex.node 60 0x07000000 (some (.node 0 0x07000000 none))).height = 1 ∧
    GetNextWorkRequired (fun _ _ _ _ => none)
        (some (.node 60 0x07000000 (some (.node 0 0x07000000 none)))) mainParams =
      TargetGetInitial mainParams := by
  exact ⟨by decide, rfl, rfl, rfl⟩

/-- C1 (amended): for every network, the next-target computation returns
`TargetGetLimit()` (not `initial()`) when there is no previous block;
it returns `initial()` when the previous block has height 0 or height 1
(i.e. for the first and the second block after genesis); and for any taller
chain the bootstrap rule does not apply — the result is produced by the
continuous `TargetGetNext` adjustment from the two preceding blocks. -/
theorem c1_bootstrap_targets (targetGetNext : Nat → Int → Int → Int → Option Nat)
    (params : ConsensusParams) :
    GetNextWorkRequired targetGetNext none params = TargetGetLimit params ∧
    (∀ b : BlockIndex, b.height = 0 →
      GetNextWorkRequired targetGetNext (some b) params = TargetGetInitial params) ∧
    (∀ b : BlockIndex, b.height = 1 →
      GetNextWorkRequired targetGetNext (some b) params = TargetGetInitial params) ∧
    (∀ b prev : BlockIndex, b.pprev = some prev → prev.pprev ≠ none →
      GetNextWorkRequired targetGetNext (some b) params =
        (targetGetNext b.nBits (Int.tdiv params.nPowTargetTimespan params.nPowTargetSpacing)
            params.nPowTargetSpacing (b.GetBlockTime - prev.GetBlockTime)).getD 0) := by
  refine ⟨rfl, ?_, ?_, ?_⟩
  · rintro ⟨t, bits, p⟩ hh
    cases p with
    | none => rfl
    | some p => simp [BlockIndex.height] at hh
  · rintro ⟨t, bits, p⟩ hh
    cases p with
    | none => simp [BlockIndex.height] at hh
    | some p =>
      rcases p with ⟨t2, bits2, p2⟩
      cases p2 with
      | none => rfl
      | some p2 => simp [BlockIndex.height] at hh
  · rintro ⟨t, bits, p⟩ prev hp hpp
    simp only [BlockIndex.pprev] at hp
    subst hp
    rcases prev with ⟨t2, bits2, p2⟩
    simp only [BlockIndex.pprev] at hpp
    cases p2 with
    | none => exact absurd rfl hpp
    | some p2 =>
      simp only [GetNextWorkRequired, BlockIndex.pprev, BlockIndex.nBits,
        BlockIndex.GetBlockTime, BlockIndex.nTime]
      cases targetGetNext bits (Int.tdiv params.nPowTargetTimespan params.nPowTargetSpacing)
          params.nPowTargetSpacing ((t : Int) - (t2 : Int)) <;> rfl

/-- Witness for `c1_bootstrap_targets`: the three block-dependent conjuncts
instantiated on a concrete mainnet chain of heights 0, 1, 2. -/
theorem c1_bootstrap_targets_witness :
    GetNextWorkRequired (fun _ _ _ _ => some 42) (some (.node 5 9 none)) mainParams
        = TargetGetInitial mainParams ∧
    GetNextWorkRequired (fun _ _ _ _ => some 42)
        (some (.node 65 9 (some (.node 5 9 none)))) mainParams
        = TargetGetInitial mainParams ∧
    GetNextWorkRequired (fun _ _ _ _ => some 42)
        (some (.node 125 9 (some (.node 65 9 (some (.node 5 9 none)))))) mainParams = 42 := by
  refine ⟨(c1_bootstrap_targets (fun _ _ _ _ => some 42) mainParams).2.1 _ rfl,
          (c1_bootstrap_targets (fun _ _ _ _ => some 42) mainParams).2.2.1 _ rfl, ?_⟩
  have h := (c1_bootstrap_targets (fun _ _ _ _ => some 42) mainParams).2.2.2
      (BlockIndex.node 125 9 (some (.node 65 9 (some (.node 5 9 none)))))
      (BlockIndex.node 65 9 (some (.node 5 9 none))) rfl (by simp [BlockIndex.pprev])
  simpa using h

/-! ### C2: `fPowNoRetargeting` holds the target constant -/

/-- C2: for every chain with `fPowNoRetargeting = true` (regtest), the
windowed next-work computation returns exactly the previous block's compact
target, at every height and for every window start time. -/
theorem c2_no_retargeting_holds_target (params : ConsensusParams)
    (h : params.fPowNoRetargeting = true) (pindexLast : BlockIndex)
    (nFirstBlockTime : Int) :
    CalculateNextWorkRequired pindexLast nFirstBlockTime params = pindexLast.nBits := by
  simp [CalculateNextWorkRequired, h]

/-- Witness for `c2_no_retargeting_holds_target` on the regtest network. -/
theorem c2_no_retargeting_holds_target_witness :
    CalculateNextWorkRequired (.node 1385686192 (TargetFromInt 1) none) 0 regTestParams
      = TargetFromInt 1 :=
  c2_no_retargeting_holds_target regTestParams rfl (.node 1385686192 (TargetFromInt 1) none) 0

/-! ### C3: bounds of the windowed retarget -/

/-- C3 (counterexample): the claim says the windowed retarget output always
lies within `[params.minLength, limit()]`.  With the mainnet parameters and a
previous block carrying the mainnet limit target itself (`TargetFromInt 6`,
also the mainnet genesis target), the computation returns 0 — strictly below
the network minimum length under either reading (raw length or its compact
encoding): no lower clamp exists in the code. -/
theorem c3_windowed_counterexample :
    CalculateNextWorkRequired (.node 604800 (TargetGetLimit mainParams) none) 0 mainParams
        = 0 ∧
    CalculateNextWorkRequired (.node 604800 (TargetGetLimit mainParams) none) 0 mainParams
        < mainParams.nTargetMinLength ∧
    CalculateNextWorkRequired (.node 604800 (TargetGetLimit mainParams) none) 0 mainParams
        < TargetGetLimit mainParams := by
  exact ⟨by decide, by decide, by decide⟩

set_option maxRecDepth 4000 in
/-- C3 (amended): the windowed retarget clamps the measured timespan to
`[nPowTargetTimespan/4, nPowTargetTimespan*4]`, scales the decoded previous
target by the clamped ratio, and clamps the result only at the `powLimit`
ceiling: on any network whose `powLimit` does not exceed the mainnet/testnet
value the returned compact never exceeds `getCompact powLimit = 0x1d00ffff`.
No lower clamp at `params.nTargetMinLength` is applied. -/
theorem c3_windowed_clamps (pindexLast : BlockIndex) (nFirstBlockTime : Int)
    (params : ConsensusParams) (hnr : params.fPowNoRetargeting = false)
    (hts : 0 ≤ params.nPowTargetTimespan)
    (hpl : params.powLimit ≤ mainParams.powLimit) :
    (Int.tdiv params.nPowTargetTimespan 4
        ≤ clampedTimespan params (pindexLast.GetBlockTime - nFirstBlockTime) ∧
      clampedTimespan params (pindexLast.GetBlockTime - nFirstBlockTime)
        ≤ params.nPowTargetTimespan * 4) ∧
    CalculateNextWorkRequired pindexLast nFirstBlockTime params
      ≤ getCompact mainParams.powLimit := by
  constructor
  · have htd : Int.tdiv params.nPowTargetTimespan 4 = params.nPowTargetTimespan / 4 :=
      Int.tdiv_eq_ediv hts (by norm_num)
    simp only [clampedTimespan]
    rw [htd]
    split_ifs <;> omega
  · have hmain : getCompact mainParams.powLimit = 0x1d00ffff := by decide
    rw [hmain]
    simp only [CalculateNextWorkRequired, hnr, if_false, Bool.false_eq_true]
    split
    · next h =>
      exact getCompact_le_of_lt_pow224
        (lt_of_le_of_lt hpl (by norm_num [mainParams]))
    · next h =>
      apply getCompact_le_of_lt_pow224
      have : _ ≤ params.powLimit := not_lt.mp h
      calc _ ≤ params.powLimit := this
        _ < 2 ^ 224 := lt_of_le_of_lt hpl (by norm_num [mainParams])

/-- Witness for `c3_windowed_clamps` on mainnet at a concrete chain state. -/
theorem c3_windowed_clamps_witness :
    (Int.tdiv mainParams.nPowTargetTimespan 4
        ≤ clampedTimespan mainParams
            ((BlockIndex.node 604801 0x1d00ffff none).GetBlockTime - 0) ∧
      clampedTimespan mainParams
          ((BlockIndex.node 604801 0x1d00ffff none).GetBlockTime - 0)
        ≤ mainParams.nPowTargetTimespan * 4) ∧
    CalculateNextWorkRequired (.node 604801 0x1d00ffff none) 0 mainParams
      ≤ getCompact mainParams.powLimit :=
  c3_windowed_clamps (.node 604801 0x1d00ffff none) 0 mainParams rfl (by decide) (le_refl _)

/-! ### C4: the proof-of-work header hash excludes the multiplier -/

/-- C4: for every pair of headers that agree on version, previous-block
reference, merkle root, time, compact target and nonce but differ arbitrarily
in the prime-chain multiplier, `GetHeaderHash` produces the identical
proof-of-work hash, for every hash primitive. -/
theorem c4_header_hash_excludes_multiplier (hashFn : List Nat → Nat)
    (h1 h2 : CBlockHeader)
    (hv : h1.nVersion = h2.nVersion) (hp : h1.hashPrevBlock = h2.hashPrevBlock)
    (hm : h1.hashMerkleRoot = h2.hashMerkleRoot) (ht : h1.nTime = h2.nTime)
    (hb : h1.nBits = h2.nBits) (hn : h1.nNonce = h2.nNonce) :
    GetHeaderHash hashFn h1 = GetHeaderHash hashFn h2 := by
  simp [GetHeaderHash, headerHashInput, hv, hp, hm, ht, hb, hn]

/-- Witness for `c4_header_hash_excludes_multiplier`: two concrete headers
differing only in the multiplier field. -/
theorem c4_header_hash_excludes_multiplier_witness :
    GetHeaderHash (fun l => l.length)
        { nVersion := 2, hashPrevBlock := 0, hashMerkleRoot := 1, nTime := 10,
          nBits := 0x07000000, nNonce := 30, bnPrimeChainMultiplier := 5651310 } =
      GetHeaderHash (fun l => l.length)
        { nVersion := 2, hashPrevBlock := 0, hashMerkleRoot := 1, nTime := 10,
          nBits := 0x07000000, nNonce := 30, bnPrimeChainMultiplier := 999 } :=
  c4_header_hash_excludes_multiplier (fun l => l.length) _ _ rfl rfl rfl rfl rfl rfl

/-! ### C5: the header wire layout round-trips -/

theorem serLE_length (w n : Nat) : (serLE w n).length = w := by
  induction w generalizing n with
  | zero => rfl
  | succ w ih => simp [serLE, ih]

theorem leToNat_serLE (w n : Nat) : leToNat (serLE w n) = n % 256 ^ w := by
  induction w generalizing n with
  | zero => simp [serLE, leToNat, Nat.mod_one]
  | succ w ih =>
    simp only [serLE, leToNat, List.foldr] at *
    rw [ih (n / 256)]
    rw [pow_succ, mul_comm (256 ^ w) 256, Nat.mod_mul]

theorem leToNat_serLE_of_lt {w n : Nat} (h : n < 256 ^ w) : leToNat (serLE w n) = n := by
  rw [leToNat_serLE, Nat.mod_eq_of_lt h]

theorem leToNat_natBytesFuel : ∀ fuel m, m ≤ fuel → leToNat (natBytesFuel fuel m) = m := by
  intro fuel
  induction fuel with
  | zero =>
    intro m hm
    have : m = 0 := Nat.le_zero.mp hm
    subst this
    rfl
  | succ fuel ih =>
    intro m hm
    by_cases h0 : m = 0
    · subst h0; rfl
    · simp only [natBytesFuel, h0, if_false, leToNat, List.foldr] at *
      rw [ih (m / 256) (by omega)]
      omega

theorem leToNat_natBytesLE (n : Nat) : leToNat (natBytesLE n) = n :=
  leToNat_natBytesFuel n n le_rfl

theorem readBytes_exact {l : List Nat} {k : Nat} (rest : List Nat) (hl : l.length = k) :
    readBytes k (l ++ rest) = some (l, rest) := by
  subst hl
  simp [readBytes, List.take_left, List.drop_left]

theorem i32FromNat_serInt32 {v : Int} (h1 : -(2 ^ 31) ≤ v) (h2 : v < 2 ^ 31) :
    i32FromNat (leToNat (serInt32le v)) = v := by
  have hnn : (0 : Int) ≤ v % (2 ^ 32) := Int.emod_nonneg v (by norm_num)
  have hlt : v % (2 ^ 32) < 2 ^ 32 := Int.emod_lt_of_pos v (by norm_num)
  have hn : (v % (2 ^ 32)).toNat < 256 ^ 4 := by omega
  have hcast : (((v % (2 ^ 32)).toNat : Nat) : Int) = v % (2 ^ 32) :=
    Int.toNat_of_nonneg hnn
  rw [serInt32le, ser32le, leToNat_serLE_of_lt hn, i32FromNat]
  split
  · next hlt31 =>
    have hc : v % (2 ^ 32) < 2 ^ 31 := by
      rw [← hcast]; exact_mod_cast hlt31
    rw [hcast]
    omega
  · next hge31 =>
    have hc : (2 : Int) ^ 31 ≤ v % (2 ^ 32) := by
      rw [← hcast]; exact_mod_cast Nat.le_of_not_lt hge31
    rw [hcast]
    omega

/-- C5: deserializing a serialized header recovers the header exactly (and
therefore re-serializing reproduces the original bytes): the wire layout
writes version, previous-block id, merkle root, time, compact target, nonce,
then the length-prefixed variable-size multiplier, and the decoder inverts it
whenever the fields are within their wire-format ranges. -/
theorem c5_header_roundtrip (h : CBlockHeader) (rest : List Nat)
    (hv1 : -(2 ^ 31) ≤ h.nVersion) (hv2 : h.nVersion < 2 ^ 31)
    (hpb : h.hashPrevBlock < 2 ^ 256) (hmr : h.hashMerkleRoot < 2 ^ 256)
    (htm : h.nTime < 2 ^ 32) (hbits : h.nBits < 2 ^ 32) (hnn : h.nNonce < 2 ^ 32)
    (hmult : (natBytesLE h.bnPrimeChainMultiplier).length < 253) :
    deserHeader (serHeader h ++ rest) = some (h, rest) := by
  have e32 : (256 : Nat) ^ 4 = 2 ^ 32 := by norm_num
  have e256 : (256 : Nat) ^ 32 = 2 ^ 256 := by norm_num
  simp only [serHeader, serBigNum, List.append_assoc, List.cons_append]
  rw [deserHeader]
  rw [readBytes_exact _ (by simp [serInt32le, ser32le, serLE_length])]
  simp only [Option.bind_eq_bind, Option.some_bind]
  rw [readBytes_exact _ (by simp [ser256le, serLE_length])]
  simp only [Option.bind_eq_bind, Option.some_bind]
  rw [readBytes_exact _ (by simp [ser256le, serLE_length])]
  simp only [Option.bind_eq_bind, Option.some_bind]
  rw [readBytes_exact _ (by simp [ser32le, serLE_length])]
  simp only [Option.bind_eq_bind, Option.some_bind]
  rw [readBytes_exact _ (by simp [ser32le, serLE_length])]
  simp only [Option.bind_eq_bind, Option.some_bind]
  rw [readBytes_exact _ (by simp [ser32le, serLE_length])]
  simp only [Option.bind_eq_bind, Option.some_bind]
  rw [if_pos hmult]
  rw [readBytes_exact _ rfl]
  simp only [Option.bind_eq_bind, Option.some_bind]
  rw [i32FromNat_serInt32 hv1 hv2]
  rw [ser256le, leToNat_serLE_of_lt (by rw [e256]; exact hpb)]
  rw [ser256le, leToNat_serLE_of_lt (by rw [e256]; exact hmr)]
  rw [ser32le, leToNat_serLE_of_lt (by rw [e32]; exact htm)]
  rw [ser32le, leToNat_serLE_of_lt (by rw [e32]; exact hbits)]
  rw [ser32le, leToNat_serLE_of_lt (by rw [e32]; exact hnn)]
  rw [leToNat_natBytesLE]
  rfl

/-- Witness for `c5_header_roundtrip`: a concrete header (the mainnet genesis
constants) with trailing stream bytes. -/
theorem c5_header_roundtrip_witness :
    deserHeader (serHeader
        { nVersion := 2, hashPrevBlock := 0,
          hashMerkleRoot := genesisMerkleRootConst, nTime := 1384627170,
          nBits := 0x06000000, nNonce := 49030125,
          bnPrimeChainMultiplier := 5651310 } ++ [7, 7]) =
      some ({ nVersion := 2, hashPrevBlock := 0,
              hashMerkleRoot := genesisMerkleRootConst, nTime := 1384627170,
              nBits := 0x06000000, nNonce := 49030125,
              bnPrimeChainMultiplier := 5651310 }, [7, 7]) :=
  c5_header_roundtrip _ [7, 7] (by norm_num) (by norm_num)
    (by norm_num) (by norm_num [genesisMerkleRootConst]) (by norm_num) (by norm_num)
    (by norm_num) (by decide)

/-! ### C7: genesis constants are asserted fatally at process start -/

theorem buildGenesisChecked_isSome (getHash : CBlockHeader → Nat)
    (g : CBlockHeader) (e : Nat) :
    (buildGenesisChecked getHash g e).isSome = true ↔
      (getHash g = e ∧ g.hashMerkleRoot = genesisMerkleRootConst) := by
  unfold buildGenesisChecked
  split_ifs with h <;> simp [h]

/-- C7: for each network (main, test, regtest), the process-start construction
of the chain parameters succeeds exactly when the genesis block built from that
network's fixed constants has block hash and merkle root equal to the
network-hardcoded constants; on any mismatch the assertion branch is fatal
(`none`), so the error branch is unreachable precisely when the constants are
correct.  The hash and merkle primitives (`primitives/block.cpp`,
`consensus/merkle.cpp`) are parameters. -/
theorem c7_genesis_assertions (getHash : CBlockHeader → Nat)
    (blockMerkleRoot : GenesisTx → Nat) :
    ((buildGenesisChecked getHash (mainGenesisBlock blockMerkleRoot)
          mainGenesisHashConst).isSome = true ↔
        (getHash (mainGenesisBlock blockMerkleRoot) = mainGenesisHashConst ∧
          blockMerkleRoot ⟨startTopic, COIN⟩ = genesisMerkleRootConst)) ∧
    ((buildGenesisChecked getHash (testNetGenesisBlock blockMerkleRoot)
          testNetGenesisHashConst).isSome = true ↔
        (getHash (testNetGenesisBlock blockMerkleRoot) = testNetGenesisHashConst ∧
          blockMerkleRoot ⟨startTopic, COIN⟩ = genesisMerkleRootConst)) ∧
    ((buildGenesisChecked getHash (regTestGenesisBlock blockMerkleRoot)
          regTestGenesisHashConst).isSome = true ↔
        (getHash (regTestGenesisBlock blockMerkleRoot) = regTestGenesisHashConst ∧
          blockMerkleRoot ⟨startTopic, COIN⟩ = genesisMerkleRootConst)) :=
  ⟨buildGenesisChecked_isSome _ _ _, buildGenesisChecked_isSome _ _ _,
    buildGenesisChecked_isSome _ _ _⟩

/-! ### C10: `getblockhash` height-range error behaviour -/

/-- C10: the best-chain block-hash lookup raises "Block height out of range"
exactly when the argument is negative or exceeds the active chain height;
otherwise it returns the hash of the active-chain block at exactly that
height; in both cases the chain state is left unchanged. -/
theorem c10_getblockhash_range (st : NodeState) (nHeight : Int) :
    ((getblockhash st nHeight).1 = .error "Block height out of range" ↔
      (nHeight < 0 ∨ nHeight > chainHeight st.chainActive)) ∧
    (∀ h0 : 0 ≤ nHeight, nHeight ≤ chainHeight st.chainActive →
      ∃ hv : nHeight.toNat < st.chainActive.length,
        (getblockhash st nHeight).1 = .ok (st.chainActive.get ⟨nHeight.toNat, hv⟩)) ∧
    (getblockhash st nHeight).2 = st := by
  refine ⟨?_, ?_, rfl⟩
  · unfold getblockhash
    split_ifs with h
    · simpa using h
    · constructor
      · intro he
        exact absurd he (by simp)
      · intro hc
        exact absurd hc h
  · intro h0 h1
    have hv : nHeight.toNat < st.chainActive.length := by
      unfold chainHeight at h1
      omega
    refine ⟨hv, ?_⟩
    unfold getblockhash
    rw [if_neg (by unfold chainHeight; omega)]
    congr 1
    rw [List.getD_eq_getElem?_getD, List.getElem?_eq_getElem hv]
    rfl

/-- Witness for `c10_getblockhash_range`: a two-block chain queried at
height 1 (in range) — the error-iff conjunct additionally refutes the error at
that height. -/
theorem c10_getblockhash_range_witness :
    ∃ hv : (1 : Int).toNat < ([10, 20] : List Nat).length,
      (getblockhash ⟨[], [10, 20]⟩ 1).1 = .ok (([10, 20] : List Nat).get ⟨(1 : Int).toNat, hv⟩) :=
  (c10_getblockhash_range ⟨[], [10, 20]⟩ 1).2.1 (by norm_num) (by decide)

/-! ### C6: `reconsiderblock` and the failure flags -/

/-- C6 (counterexample): the claim says `reconsider` does not clear failed
flags on descendants.  On the concrete three-block chain 1 ← 2 ← 3 in which
block 2 is marked failed and its descendant 3 carries the failed-ancestor
flag, reconsidering block 2 clears block 3's flag as well (matching the RPC's
own documentation "Removes invalidity status of a block and its
descendants"). -/
theorem c6_reconsider_counterexample :
    isAncestorOrSelf
        [⟨1, none, 0, ⟨.scripts, false, false⟩, 1⟩,
         ⟨2, some 1, 1, ⟨.tree, true, false⟩, 1⟩,
         ⟨3, some 2, 2, ⟨.tree, false, true⟩, 1⟩] 2 3 = true ∧
    (⟨3, some 2, 2, ⟨.tree, false, true⟩, 1⟩ : BlockNode).status.failedMask = true ∧
    reconsiderblock id
        ⟨[⟨1, none, 0, ⟨.scripts, false, false⟩, 1⟩,
          ⟨2, some 1, 1, ⟨.tree, true, false⟩, 1⟩,
          ⟨3, some 2, 2, ⟨.tree, false, true⟩, 1⟩], [1]⟩ 2 =
      .ok ⟨[⟨1, none, 0, ⟨.scripts, false, false⟩, 1⟩,
            ⟨2, some 1, 1, ⟨.tree, false, false⟩, 1⟩,
            ⟨3, some 2, 2, ⟨.tree, false, false⟩, 1⟩], [1]⟩ := by
  refine ⟨by decide, by decide, by rfl⟩

/-- C6 (amended): for every known block hash, `reconsiderblock` clears the
failed flags on the node, on its ancestors, and on its descendants, changes no
other entry and no other field, leaves the active chain unmodified, and then
forces a best-chain reselection (`ActivateBestChain`, applied to exactly the
flag-cleared state); an unknown hash yields the "Block not found" error. -/
theorem c6_reconsider_clears (activateBestChain : NodeState → NodeState)
    (st : NodeState) (h : Nat)
    (hfound : (lookupBlock st.mapBlockIndex h).isSome = true) :
    (∃ st', reconsiderblock activateBestChain st h = .ok (activateBestChain st') ∧
      st'.chainActive = st.chainActive ∧
      st'.mapBlockIndex.length = st.mapBlockIndex.length ∧
      (∀ n ∈ st.mapBlockIndex,
        ((isAncestorOrSelf st.mapBlockIndex h n.hash ||
            isAncestorOrSelf st.mapBlockIndex n.hash h) = true →
          { n with status := clearFailed n.status } ∈ st'.mapBlockIndex) ∧
        ((isAncestorOrSelf st.mapBlockIndex h n.hash ||
            isAncestorOrSelf st.mapBlockIndex n.hash h) = false →
          n ∈ st'.mapBlockIndex))) ∧
    (∀ st₂ h₂, (lookupBlock (NodeState.mapBlockIndex st₂) h₂).isSome = false →
      reconsiderblock activateBestChain st₂ h₂ = .error "Block not found") := by
  constructor
  · refine ⟨{ st with mapBlockIndex := ResetBlockFailureFlags st.mapBlockIndex h }, ?_, rfl,
      by simp [ResetBlockFailureFlags], ?_⟩
    · unfold reconsiderblock
      rw [if_pos hfound]
    · intro n hn
      constructor
      · intro hc
        have hmem := List.mem_map_of_mem (resetEntry st.mapBlockIndex h) hn
        unfold resetEntry at hmem
        rw [if_pos hc] at hmem
        exact hmem
      · intro hc
        have hmem := List.mem_map_of_mem (resetEntry st.mapBlockIndex h) hn
        unfold resetEntry at hmem
        rw [if_neg (by rw [hc]; simp)] at hmem
        exact hmem
  · intro st₂ h₂ hnone
    unfold reconsiderblock
    rw [if_neg (by rw [hnone]; simp)]

/-- Witness for `c6_reconsider_clears` on the concrete three-block chain. -/
theorem c6_reconsider_clears_witness :
    ∃ st', reconsiderblock id
        ⟨[⟨1, none, 0, ⟨.scripts, false, false⟩, 1⟩,
          ⟨2, some 1, 1, ⟨.tree, true, false⟩, 1⟩,
          ⟨3, some 2, 2, ⟨.tree, false, true⟩, 1⟩], [1]⟩ 2 = .ok (id st') ∧
      st'.chainActive = [1] ∧
      st'.mapBlockIndex.length = 3 ∧
      (∀ n ∈ ([⟨1, none, 0, ⟨.scripts, false, false⟩, 1⟩,
          ⟨2, some 1, 1, ⟨.tree, true, false⟩, 1⟩,
          ⟨3, some 2, 2, ⟨.tree, false, true⟩, 1⟩] : List BlockNode),
        ((isAncestorOrSelf [⟨1, none, 0, ⟨.scripts, false, false⟩, 1⟩,
            ⟨2, some 1, 1, ⟨.tree, true, false⟩, 1⟩,
            ⟨3, some 2, 2, ⟨.tree, false, true⟩, 1⟩] 2 n.hash ||
            isAncestorOrSelf [⟨1, none, 0, ⟨.scripts, false, false⟩, 1⟩,
              ⟨2, some 1, 1, ⟨.tree, true, false⟩, 1⟩,
              ⟨3, some 2, 2, ⟨.tree, false, true⟩, 1⟩] n.hash 2) = true →
          { n with status := clearFailed n.status } ∈ st'.mapBlockIndex) ∧
        ((isAncestorOrSelf [⟨1, none, 0, ⟨.scripts, false, false⟩, 1⟩,
            ⟨2, some 1, 1, ⟨.tree, true, false⟩, 1⟩,
            ⟨3, some 2, 2, ⟨.tree, false, true⟩, 1⟩] 2 n.hash ||
            isAncestorOrSelf [⟨1, none, 0, ⟨.scripts, false, false⟩, 1⟩,
              ⟨2, some 1, 1, ⟨.tree, true, false⟩, 1⟩,
              ⟨3, some 2, 2, ⟨.tree, false, true⟩, 1⟩] n.hash 2) = false →
          n ∈ st'.mapBlockIndex)) :=
  (c6_reconsider_clears id
    ⟨[⟨1, none, 0, ⟨.scripts, false, false⟩, 1⟩,
      ⟨2, some 1, 1, ⟨.tree, true, false⟩, 1⟩,
      ⟨3, some 2, 2, ⟨.tree, false, true⟩, 1⟩], [1]⟩ 2 (by decide)).1

/-! ### C8: `getchaintips` returns the leaves plus the active tip -/

theorem blockHash_inj {g : List BlockNode} (hnodup : (g.map BlockNode.hash).Nodup)
    {a b : BlockNode} (ha : a ∈ g) (hb : b ∈ g) (h : a.hash = b.hash) : a = b :=
  List.inj_on_of_nodup_map hnodup ha hb h

theorem lookupBlock_self {g : List BlockNode} (hnodup : (g.map BlockNode.hash).Nodup)
    {b : BlockNode} (hb : b ∈ g) : lookupBlock g b.hash = some b := by
  unfold lookupBlock
  cases hfind : g.find? (fun n => n.hash = b.hash) with
  | none =>
    have := List.find?_eq_none.mp hfind b hb
    simp at this
  | some m =>
    have hmem := List.mem_of_find?_eq_some hfind
    have hp := List.find?_some hfind
    have hmb : m.hash = b.hash := by simpa using hp
    rw [blockHash_inj hnodup hmem hb hmb]

theorem chainContains_eq_true {st : NodeState} {n : BlockNode} :
    chainContains st n = true ↔ st.chainActive.get? n.nHeight = some n.hash := by
  simp [chainContains]

theorem chain_parent_active (st : NodeState)
    (hnodup : (st.mapBlockIndex.map BlockNode.hash).Nodup)
    (hchain : ∀ i h, st.chainActive.get? i = some h →
      ∃ n ∈ st.mapBlockIndex, n.hash = h ∧ n.nHeight = i)
    (hlink : ∀ i h h', st.chainActive.get? i = some h →
      st.chainActive.get? (i + 1) = some h' →
      ∀ n ∈ st.mapBlockIndex, n.hash = h' → n.pprev = some h)
    (hgen : ∀ h, st.chainActive.get? 0 = some h →
      ∀ n ∈ st.mapBlockIndex, n.hash = h → n.pprev = none)
    {c b : BlockNode} (hc : c ∈ st.mapBlockIndex) (hcont : chainContains st c = true)
    (hb : b ∈ st.mapBlockIndex) (hp : c.pprev = some b.hash) :
    chainContains st b = true := by
  rw [chainContains_eq_true] at hcont
  cases hh : c.nHeight with
  | zero =>
    rw [hh] at hcont
    have := hgen c.hash hcont c hc rfl
    rw [this] at hp
    exact Option.noConfusion hp
  | succ i =>
    rw [hh] at hcont
    have hlt : i + 1 < st.chainActive.length := by
      obtain ⟨hl, _⟩ := List.get?_eq_some.mp hcont
      exact hl
    have hgi : st.chainActive.get? i = some (st.chainActive.get ⟨i, by omega⟩) :=
      List.get?_eq_get (by omega)
    have hcp := hlink i (st.chainActive.get ⟨i, by omega⟩) c.hash hgi hcont c hc rfl
    rw [hp] at hcp
    have hbh : b.hash = st.chainActive.get ⟨i, by omega⟩ := by
      injection hcp
    obtain ⟨n, hn, hnhash, hnheight⟩ := hchain i _ hgi
    have hnb : n = b := blockHash_inj hnodup hn hb (by rw [hnhash, hbh])
    rw [chainContains_eq_true, ← hnb, hnheight, hgi, hnb, hbh]

theorem chain_mid_has_child (st : NodeState)
    (hchain : ∀ i h, st.chainActive.get? i = some h →
      ∃ n ∈ st.mapBlockIndex, n.hash = h ∧ n.nHeight = i)
    (hlink : ∀ i h h', st.chainActive.get? i = some h →
      st.chainActive.get? (i + 1) = some h' →
      ∀ n ∈ st.mapBlockIndex, n.hash = h' → n.pprev = some h)
    {b : BlockNode} (hcont : chainContains st b = true)
    (hmid : b.nHeight + 1 < st.chainActive.length) :
    ∃ c ∈ st.mapBlockIndex, c.pprev = some b.hash := by
  have hg1 : st.chainActive.get? (b.nHeight + 1) =
      some (st.chainActive.get ⟨b.nHeight + 1, hmid⟩) := List.get?_eq_get hmid
  obtain ⟨c, hcmem, hchash, hcheight⟩ := hchain (b.nHeight + 1) _ hg1
  have hg0 : st.chainActive.get? b.nHeight = some b.hash := chainContains_eq_true.mp hcont
  have := hlink b.nHeight b.hash _ hg0 hg1 c hcmem hchash
  exact ⟨c, hcmem, this⟩

/-- C8 (counterexample): the claim says every reported tip is annotated with
one of exactly five statuses.  On a concrete state with an orphan whose block
data is counted (`nChainTx ≠ 0`) but whose validity is below tree-valid, the
code's fallback branch annotates the tip `"unknown"` — a sixth status. -/
theorem c8_chaintips_counterexample :
    (getchaintips ⟨[⟨1, none, 0, ⟨.scripts, false, false⟩, 1⟩,
        ⟨2, some 1, 1, ⟨.header, false, false⟩, 1⟩], [1]⟩).map Prod.snd
      = ["unknown", "active"] ∧
    "unknown" ∉ ["active", "invalid", "valid-fork", "valid-headers",
        "valid-headers-only", "headers-only"] := by
  exact ⟨by rfl, by decide⟩

/-- C8 (amended): on every well-formed state (distinct hashes; the active
chain nonempty, made of indexed entries linked parent-to-child, starting at a
parentless genesis), `getchaintips` reports exactly the leaf entries (entries
no other entry builds on) plus the active tip, and annotates each reported tip
with one of the six statuses `active`, `invalid`, `headers-only`,
`valid-fork`, `valid-headers` (the spec's "valid-headers-only"), or the
fallback `unknown`. -/
theorem c8_chaintips_characterization (st : NodeState)
    (hnodup : (st.mapBlockIndex.map BlockNode.hash).Nodup)
    (hne : st.chainActive ≠ [])
    (hchain : ∀ i h, st.chainActive.get? i = some h →
      ∃ n ∈ st.mapBlockIndex, n.hash = h ∧ n.nHeight = i)
    (hlink : ∀ i h h', st.chainActive.get? i = some h →
      st.chainActive.get? (i + 1) = some h' →
      ∀ n ∈ st.mapBlockIndex, n.hash = h' → n.pprev = some h)
    (hgen : ∀ h, st.chainActive.get? 0 = some h →
      ∀ n ∈ st.mapBlockIndex, n.hash = h → n.pprev = none) :
    (∀ p ∈ getchaintips st, p.1 ∈ st.mapBlockIndex) ∧
    (∀ b ∈ st.mapBlockIndex,
      (b ∈ (getchaintips st).map Prod.fst ↔
        ((∀ c ∈ st.mapBlockIndex, c.pprev ≠ some b.hash) ∨
          st.chainActive.getLast? = some b.hash))) ∧
    (∀ p ∈ getchaintips st,
      p.2 = "active" ∨ p.2 = "invalid" ∨ p.2 = "headers-only" ∨
      p.2 = "valid-fork" ∨ p.2 = "valid-headers" ∨ p.2 = "unknown") := by
  have hlen : 0 < st.chainActive.length := List.length_pos.mpr hne
  have hlast0 : st.chainActive.get? (st.chainActive.length - 1) =
      some (st.chainActive.get ⟨st.chainActive.length - 1, by omega⟩) :=
    List.get?_eq_get (by omega)
  obtain ⟨tipn, htipmem, htiphash, htipheight⟩ := hchain _ _ hlast0
  have hlast : st.chainActive.getLast? = some tipn.hash := by
    rw [List.getLast?_eq_getElem?, ← List.get?_eq_getElem?, hlast0, htiphash]
  have hlook : lookupBlock st.mapBlockIndex tipn.hash = some tipn :=
    lookupBlock_self hnodup htipmem
  have hmap : (getchaintips st).map Prod.fst = chainTipsBase st ++ [tipn] := by
    simp only [getchaintips, hlast, hlook, List.map_map]
    have hid : (Prod.fst ∘ fun b : BlockNode => (b, tipStatus st b)) = id := rfl
    simp [hid]
  have hform : getchaintips st =
      (chainTipsBase st ++ [tipn]).map (fun b => (b, tipStatus st b)) := by
    simp only [getchaintips, hlast, hlook]
  refine ⟨?_, ?_, ?_⟩
  · intro p hp
    rw [hform] at hp
    obtain ⟨b, hbl, rfl⟩ := List.mem_map.mp hp
    rcases List.mem_append.mp hbl with hbase | htip
    · exact (List.mem_filter.mp (List.mem_filter.mp hbase).1).1
    · simp only [List.mem_singleton] at htip
      rw [htip]
      exact htipmem
  · intro b hb
    constructor
    · intro hmem
      rw [hmap] at hmem
      rcases List.mem_append.mp hmem with hbase | htip
      · left
        have hfil := List.mem_filter.mp hbase
        have horph := List.mem_filter.mp hfil.1
        have hbnotact : chainContains st b = false := by
          have := horph.2
          simpa using this
        have hnoprev : (chainTipsPrevs st).contains b.hash = false := by
          have := hfil.2
          simpa using this
        intro c hcmem hcp
        by_cases hcact : chainContains st c = true
        · have hbact := chain_parent_active st hnodup hchain hlink hgen hcmem hcact hb hcp
          rw [hbact] at hbnotact
          exact Bool.noConfusion hbnotact
        · have hcorph : c ∈ chainTipsOrphans st := by
            refine List.mem_filter.mpr ⟨hcmem, ?_⟩
            simp [Bool.eq_false_iff.mpr hcact]
          have hbprev : b.hash ∈ chainTipsPrevs st :=
            List.mem_filterMap.mpr ⟨c, hcorph, hcp⟩
          have := List.elem_iff.mpr hbprev
          rw [List.contains] at hnoprev
          rw [this] at hnoprev
          exact Bool.noConfusion hnoprev
      · right
        simp only [List.mem_singleton] at htip
        rw [htip]
        exact hlast
    · intro hside
      rcases hside with hleaf | htiph
      · by_cases hcont : chainContains st b = true
        · have hg := chainContains_eq_true.mp hcont
          obtain ⟨hlt, hget⟩ := List.get?_eq_some.mp hg
          by_cases hmid : b.nHeight + 1 < st.chainActive.length
          · obtain ⟨c, hcmem, hcp⟩ := chain_mid_has_child st hchain hlink hcont hmid
            exact absurd hcp (hleaf c hcmem)
          · have hheq : b.nHeight = st.chainActive.length - 1 := by omega
            have hbh : b.hash = tipn.hash := by
              rw [htiphash, ← hget]
              congr 1
              simpa using hheq
            have hbtip : b = tipn := blockHash_inj hnodup hb htipmem hbh
            rw [hmap]
            exact List.mem_append.mpr (Or.inr (by simp [hbtip]))
        · have horph : b ∈ chainTipsOrphans st := by
            refine List.mem_filter.mpr ⟨hb, ?_⟩
            simp [Bool.eq_false_iff.mpr hcont]
          have hnoprev : (chainTipsPrevs st).contains b.hash = false := by
            cases hcb : (chainTipsPrevs st).contains b.hash with
            | false => rfl
            | true =>
              have hbmem : b.hash ∈ chainTipsPrevs st := by
                rw [List.contains] at hcb
                exact List.elem_iff.mp hcb
              obtain ⟨c, hcorph, hcp⟩ := List.mem_filterMap.mp hbmem
              have hcmem : c ∈ st.mapBlockIndex := (List.mem_filter.mp hcorph).1
              exact absurd hcp (hleaf c hcmem)
          have hbase : b ∈ chainTipsBase st := by
            refine List.mem_filter.mpr ⟨horph, ?_⟩
            simp only [Bool.not_eq_true']
            exact hnoprev
          rw [hmap]
          exact List.mem_append.mpr (Or.inl hbase)
      · have hbh : b.hash = tipn.hash := by
          rw [htiph] at hlast
          exact Option.some_inj.mp hlast
        have hbtip : b = tipn := blockHash_inj hnodup hb htipmem hbh
        rw [hmap]
        exact List.mem_append.mpr (Or.inr (by simp [hbtip]))
  · intro p hp
    rw [hform] at hp
    obtain ⟨b, hbl, rfl⟩ := List.mem_map.mp hp
    unfold tipStatus
    split_ifs <;> simp

/-- Witness for `c8_chaintips_characterization`: the status conjunct on a
concrete two-entry state (active genesis plus one orphan), instantiated at the
reported active tip. -/
theorem c8_chaintips_characterization_witness :
    ((⟨1, none, 0, ⟨.scripts, false, false⟩, 1⟩, "active") : BlockNode × String).2 = "active" ∨
    ((⟨1, none, 0, ⟨.scripts, false, false⟩, 1⟩, "active") : BlockNode × String).2 = "invalid" ∨
    ((⟨1, none, 0, ⟨.scripts, false, false⟩, 1⟩, "active") : BlockNode × String).2 = "headers-only" ∨
    ((⟨1, none, 0, ⟨.scripts, false, false⟩, 1⟩, "active") : BlockNode × String).2 = "valid-fork" ∨
    ((⟨1, none, 0, ⟨.scripts, false, false⟩, 1⟩, "active") : BlockNode × String).2 = "valid-headers" ∨
    ((⟨1, none, 0, ⟨.scripts, false, false⟩, 1⟩, "active") : BlockNode × String).2 = "unknown" :=
  (c8_chaintips_characterization
    ⟨[⟨1, none, 0, ⟨.scripts, false, false⟩, 1⟩,
      ⟨2, some 1, 1, ⟨.header, false, false⟩, 1⟩], [1]⟩
    (by decide)
    (by decide)
    (by
      intro i h hg
      cases i with
      | zero =>
        simp [List.get?] at hg
        subst hg
        exact ⟨⟨1, none, 0, ⟨.scripts, false, false⟩, 1⟩, by simp, rfl, rfl⟩
      | succ j => simp [List.get?] at hg)
    (by
      intro i h h' hg hg'
      cases i <;> simp [List.get?] at hg')
    (by
      intro h hg n hn hh
      simp [List.get?] at hg
      subst hg
      rcases List.mem_cons.mp hn with h1 | hn2
      · rw [h1]
      · rcases List.mem_cons.mp hn2 with h2 | h3
        · rw [h2] at hh
          exact absurd hh (by decide)
        · simp at h3)).2.2
    (⟨1, none, 0, ⟨.scripts, false, false⟩, 1⟩, "active") (by decide)
